import Mathlib

/-!
# Verification of the nahcloud Terraform remote-state core and auxiliary components

This file gives a shallow embedding, in Lean 4, of the parts of the
hypertf/nahcloud repository relevant to the properties under scrutiny:

* the Terraform HTTP remote-state backend (state blobs and lock records,
  with the five-operation protocol GET / POST / DELETE / LOCK / UNLOCK);
* the JSON marshalling shape of the `TFStateLock` struct from
  `domain/models.go`;
* the byte/string codec from `pkg/base50` (package `base40` in the source);
* the `CreateOrganization` service operation from `service/service.go`
  together with the SQLite repository operations it calls.

Go byte slices are embedded as `List Nat` (each element `< 256` where it
matters), Go strings as `String`, and Go maps / SQL tables as association
lists, so that every definition is executable and every concrete run can be
checked by `decide` / `rfl`.
-/

/-! ## Association-list helpers

The state store keeps, per state id, at most one blob and at most one lock
record.  We embed the keyed storage as an association list with string keys
and prove the small lookup/update lemmas needed later.
-/

/-- First-match lookup in an association list (the embedding of keyed reads). -/
def lookupKey {β : Type} (k : String) : List (String × β) → Option β
  | [] => none
  | (k', v) :: rest => if k' = k then some v else lookupKey k rest

/-- Remove every entry stored under key `k` (the embedding of keyed deletes). -/
def removeKey {β : Type} (k : String) : List (String × β) → List (String × β)
  | [] => []
  | (k', v) :: rest => if k' = k then removeKey k rest else (k', v) :: removeKey k rest

/-- Insert-or-overwrite under key `k` (the embedding of keyed writes). -/
def setKey {β : Type} (k : String) (v : β) (l : List (String × β)) : List (String × β) :=
  (k, v) :: removeKey k l

/-- The keys of an association list are pairwise distinct. -/
def KeysNodup {β : Type} (l : List (String × β)) : Prop :=
  (l.map Prod.fst).Nodup

theorem lookupKey_removeKey_self {β : Type} (k : String) (l : List (String × β)) :
    lookupKey k (removeKey k l) = none := by
  induction l with
  | nil => rfl
  | cons p rest ih =>
    obtain ⟨k', v⟩ := p
    by_cases h : k' = k
    · simp [removeKey, h, ih]
    · simp [removeKey, h, lookupKey, ih]

theorem lookupKey_removeKey_ne {β : Type} {k k' : String} (h : k' ≠ k)
    (l : List (String × β)) : lookupKey k' (removeKey k l) = lookupKey k' l := by
  induction l with
  | nil => rfl
  | cons p rest ih =>
    obtain ⟨k'', v⟩ := p
    by_cases hk : k'' = k
    · subst hk
      have : ¬ (k'' = k') := fun hc => h (hc ▸ rfl)
      simp [removeKey, lookupKey, this, ih]
    · simp only [removeKey, if_neg hk, lookupKey]
      by_cases hk' : k'' = k'
      · simp [hk']
      · simp [hk', ih]

theorem lookupKey_setKey_self {β : Type} (k : String) (v : β) (l : List (String × β)) :
    lookupKey k (setKey k v l) = some v := by
  simp [setKey, lookupKey]

theorem lookupKey_setKey_ne {β : Type} {k k' : String} (h : k' ≠ k) (v : β)
    (l : List (String × β)) : lookupKey k' (setKey k v l) = lookupKey k' l := by
  have : ¬ (k = k') := fun hc => h (hc ▸ rfl)
  simp [setKey, lookupKey, this, lookupKey_removeKey_ne h]

theorem lookupKey_eq_none_iff {β : Type} (k : String) (l : List (String × β)) :
    lookupKey k l = none ↔ k ∉ l.map Prod.fst := by
  induction l with
  | nil => simp [lookupKey]
  | cons p rest ih =>
    obtain ⟨k', v⟩ := p
    by_cases h : k' = k
    · simp [lookupKey, h]
    · have h' : ¬ (k = k') := fun hc => h (hc ▸ rfl)
      simp [lookupKey, h, ih, h']

theorem mem_map_fst_removeKey {β : Type} {a k : String} {l : List (String × β)}
    (h : a ∈ (removeKey k l).map Prod.fst) : a ∈ l.map Prod.fst := by
  induction l with
  | nil => simp [removeKey] at h
  | cons p rest ih =>
    obtain ⟨k', v⟩ := p
    by_cases hk : k' = k
    · simp only [removeKey, if_pos hk] at h
      exact List.mem_cons_of_mem _ (ih h)
    · simp only [removeKey, if_neg hk, List.map_cons, List.mem_cons] at h
      rcases h with h | h
      · simp [h]
      · exact List.mem_cons_of_mem _ (ih h)

theorem keysNodup_removeKey {β : Type} (k : String) {l : List (String × β)}
    (h : KeysNodup l) : KeysNodup (removeKey k l) := by
  induction l with
  | nil => exact h
  | cons p rest ih =>
    obtain ⟨k', v⟩ := p
    simp only [KeysNodup, List.map_cons, List.nodup_cons] at h
    by_cases hk : k' = k
    · simpa [removeKey, hk] using ih h.2
    · simp only [KeysNodup, removeKey, if_neg hk, List.map_cons, List.nodup_cons]
      exact ⟨fun hc => h.1 (mem_map_fst_removeKey hc), ih h.2⟩

theorem keysNodup_setKey {β : Type} (k : String) (v : β) {l : List (String × β)}
    (h : KeysNodup l) : KeysNodup (setKey k v l) := by
  simp only [KeysNodup, setKey, List.map_cons, List.nodup_cons]
  refine ⟨?_, keysNodup_removeKey k h⟩
  intro hc
  have := (lookupKey_eq_none_iff k (removeKey k l)).mp (lookupKey_removeKey_self k l)
  exact this hc

/-! ## Domain data: the Terraform lock record (`domain/models.go`)

`TFStateLock` is embedded field by field from the Go struct.  `time.Time`
is embedded as the one-field structure `GoTime` (an instant); keeping it a
structure matters because Go's `encoding/json` treats struct-typed fields
specially under `omitempty` (see `tfLockMarshalKeys` below).
-/

/-- Embedding of Go's `time.Time` as an opaque instant (a structure, as in Go).
`sec = 0` plays the role of the zero `time.Time`. -/
structure GoTime where
  sec : Nat
deriving DecidableEq, Repr

/-- Embedding of `domain.TFStateLock` (Terraform's HTTP backend lock payload).
Field names and order match the Go struct declaration. -/
structure TFStateLock where
  ID : String
  Operation : String
  Info : String
  Who : String
  Version : String
  Created : GoTime
  Path : String
deriving DecidableEq, Repr

/-- The list of JSON keys, in output order, produced by Go's
`encoding/json.Marshal` on a `domain.TFStateLock` value, derived from the
struct tags

  ID, Operation,omitempty, Info,omitempty, Who,omitempty, Version,omitempty,
  Created,omitempty, Path,omitempty

together with `encoding/json`'s documented semantics of `omitempty`: a field
is omitted when its value is "empty", i.e. false, 0, a nil pointer/interface,
or an empty array/slice/map/string.  A struct value (such as `time.Time`) is
never "empty", so the `Created` field is always emitted, even for the zero
time; all other tagged fields are strings and are dropped exactly when `""`. -/
def tfLockMarshalKeys (r : TFStateLock) : List String :=
  ["ID"]
    ++ (if r.Operation = "" then [] else ["Operation"])
    ++ (if r.Info = "" then [] else ["Info"])
    ++ (if r.Who = "" then [] else ["Who"])
    ++ (if r.Version = "" then [] else ["Version"])
    ++ ["Created"]
    ++ (if r.Path = "" then [] else ["Path"])

/-! ## The lock-aware state service (spec sections 3, 4, 6)

The Go files `service/tfstate.go` and `api/tfstate_handlers.go` are not part
of the provided sources (only their router registrations, the lock struct and
the repository map are), so the five protocol operations are modelled from
the specification text and settled against that model.
-/

/-- Modelled from the spec: the per-deployment mutable state of the State
Store (spec section 4.1) — for each state id at most one opaque `StateBlob`
(bytes) and at most one `TFStateLock` record, missing `service/tfstate.go`. -/
structure SvcState where
  blobs : List (String × List Nat)
  locks : List (String × TFStateLock)
deriving DecidableEq, Repr

/-- Modelled from the spec: the empty store, before any state id was ever
written or locked. -/
def initState : SvcState := ⟨[], []⟩

/-- Modelled from the spec: the outcome taxonomy of the five protocol
operations (spec sections 4.2, 6 and 7), missing `api/tfstate_handlers.go`.
`noContent` is the non-error "never written" GET outcome; `noLockHeld` is the
lenient UNLOCK outcome when nothing was locked. -/
inductive TFResult where
  | okBytes (bytes : List Nat)
  | noContent
  | ok
  | badRequest (msg : String)
  | lockOk (record : TFStateLock)
  | lockConflict (existing : TFStateLock)
  | lockMismatch (existing : TFStateLock)
  | noLockHeld
deriving DecidableEq, Repr

/-- Modelled from the spec: the HTTP status each outcome is mapped to at the
wire (spec section 6 table). -/
def wireStatus : TFResult → Nat
  | .okBytes _ => 200
  | .noContent => 404
  | .ok => 200
  | .badRequest _ => 400
  | .lockOk _ => 200
  | .lockConflict _ => 423
  | .lockMismatch _ => 409
  | .noLockHeld => 200

/-- Modelled from the spec: store-level `Delete(id) -> success | NotFound`
(spec section 4.1); removes the id's blob and any lock record. -/
inductive StoreDelResult where
  | success
  | notFound
deriving DecidableEq, Repr

/-- Modelled from the spec: store-level delete of a state id, removing both
the blob and any lock record; `NotFound` when the id holds neither. -/
def storeDelete (st : SvcState) (id : String) : StoreDelResult × SvcState :=
  if lookupKey id st.blobs = none ∧ lookupKey id st.locks = none then
    (.notFound, st)
  else
    (.success, ⟨removeKey id st.blobs, removeKey id st.locks⟩)

/-- Modelled from the spec: store-level
`TryAcquireLock(id, record) -> Acquired | Conflict(existing record)` —
succeeds only if no record currently exists for the id, otherwise returns the
existing record unchanged and modifies nothing (spec section 4.1). -/
inductive TryAcquireResult where
  | acquired
  | conflict (existing : TFStateLock)
deriving DecidableEq, Repr

/-- Modelled from the spec: store-level lock acquisition (spec section 4.1). -/
def TryAcquireLock (st : SvcState) (id : String) (record : TFStateLock) :
    TryAcquireResult × SvcState :=
  match lookupKey id st.locks with
  | some existing => (.conflict existing, st)
  | none => (.acquired, { st with locks := (id, record) :: st.locks })

/-- Modelled from the spec: store-level
`ReleaseLock(id, token) -> Released | Mismatch(existing record) | NotFound` —
succeeds only if a record exists and its `id` field equals `token`
(spec section 4.1). -/
inductive StoreReleaseResult where
  | released
  | mismatch (existing : TFStateLock)
  | notFound
deriving DecidableEq, Repr

/-- Modelled from the spec: store-level lock release (spec section 4.1). -/
def storeReleaseLock (st : SvcState) (id : String) (token : String) :
    StoreReleaseResult × SvcState :=
  match lookupKey id st.locks with
  | none => (.notFound, st)
  | some existing =>
    if existing.ID = token then
      (.released, { st with locks := removeKey id st.locks })
    else
      (.mismatch existing, st)

/-- Modelled from the spec: `GetState(id)` — current blob bytes, or the
non-error `noContent` outcome if the id has never been written
(spec section 4.2), missing `service/tfstate.go`. -/
def GetState (st : SvcState) (id : String) : TFResult × SvcState :=
  match lookupKey id st.blobs with
  | some bytes => (.okBytes bytes, st)
  | none => (.noContent, st)

/-- Modelled from the spec: `SetState(id, bytes)` — rejects an empty body
(spec section 6: 400 on empty body), otherwise overwrites the blob wholesale;
no lock check is enforced server-side (spec sections 4.2, 7), missing
`service/tfstate.go`. -/
def SetState (st : SvcState) (id : String) (bytes : List Nat) : TFResult × SvcState :=
  if bytes = [] then
    (.badRequest ("state body must be non-empty"), st)
  else
    (.ok, { st with blobs := setKey id bytes st.blobs })

/-- Modelled from the spec: `DeleteState(id)` — calls store `Delete`, removes
both blob and any lock, and treats a nonexistent id as a no-op success
(spec section 4.2), missing `service/tfstate.go`. -/
def DeleteState (st : SvcState) (id : String) : TFResult × SvcState :=
  match storeDelete st id with
  | (.success, st') => (.ok, st')
  | (.notFound, st') => (.ok, st')

/-- Modelled from the spec: `AcquireLock(id, record)` — validates that the
record has a non-empty `id` token, calls `TryAcquireLock`, and on conflict
returns the existing holder's record, not the caller's (spec section 4.2),
missing `service/tfstate.go`. -/
def AcquireLock (st : SvcState) (id : String) (record : TFStateLock) :
    TFResult × SvcState :=
  if record.ID = "" then
    (.badRequest ("lock record must carry a non-empty ID token"), st)
  else
    match TryAcquireLock st id record with
    | (.acquired, st') => (.lockOk record, st')
    | (.conflict existing, st') => (.lockConflict existing, st')

/-- Modelled from the spec: `ReleaseLock(id, token)` — validates that the
token is present, calls the store release; on mismatch returns the existing
record, on `NotFound` returns the lenient "no lock held" outcome
(spec section 4.2), missing `service/tfstate.go`. -/
def ReleaseLock (st : SvcState) (id : String) (token : String) :
    TFResult × SvcState :=
  if token = "" then
    (.badRequest ("lock token is required"), st)
  else
    match storeReleaseLock st id token with
    | (.released, st') => (.ok, st')
    | (.mismatch existing, st') => (.lockMismatch existing, st')
    | (.notFound, st') => (.noLockHeld, st')

/-! ### Reachable states

The service is driven by a sequence of protocol requests; a state is
reachable when some request sequence produces it from the empty store.
-/

/-- Modelled from the spec: one inbound protocol request (method plus
dispatch arguments), spec section 2. -/
inductive TFOp where
  | getS (id : String)
  | setS (id : String) (bytes : List Nat)
  | delS (id : String)
  | lockS (id : String) (record : TFStateLock)
  | unlockS (id : String) (token : String)
deriving DecidableEq, Repr

/-- Modelled from the spec: the state transition performed by one request. -/
def applyOp (st : SvcState) : TFOp → SvcState
  | .getS id => (GetState st id).2
  | .setS id bytes => (SetState st id bytes).2
  | .delS id => (DeleteState st id).2
  | .lockS id record => (AcquireLock st id record).2
  | .unlockS id token => (ReleaseLock st id token).2

/-- Modelled from the spec: running a request sequence from a given state. -/
def runOps (st : SvcState) (ops : List TFOp) : SvcState :=
  ops.foldl applyOp st

/-- A state is reachable when some request sequence produces it from the
empty store. -/
def Reachable (st : SvcState) : Prop :=
  ∃ ops : List TFOp, runOps initState ops = st

/-! ## The `pkg/base50` codec (package `base40` in the source)

`Encode` converts a byte slice to a string over a fixed 40-character
alphabet via repeated division (`big.Int.DivMod`), prefixing one copy of
the first alphabet character per leading zero byte; `Decode` inverts it.
Bytes are `Nat`s (`< 256`), the produced string is its list of characters,
and `big.Int` arithmetic on the non-negative values involved is `Nat`
arithmetic.  `Nat.digits 40 n` is exactly the little-endian digit list the
`for num > 0 { DivMod }` loop of the source produces, and
`(Nat.digits 256 n).reverse` is exactly `big.Int.Bytes` (shortest big-endian
form).
-/

namespace base40

/-- The codec alphabet, character by character from the source constant
"29bcdfghjkmnpqrstwxyzBCDFGHJKMNPQRSTWXYZ". -/
def alphabet : List Char :=
  ['2', '9', 'b', 'c', 'd', 'f', 'g', 'h', 'j', 'k', 'm', 'n', 'p', 'q', 'r',
   's', 't', 'w', 'x', 'y', 'z', 'B', 'C', 'D', 'F', 'G', 'H', 'J', 'K', 'M',
   'N', 'P', 'Q', 'R', 'S', 'T', 'W', 'X', 'Y', 'Z']

/-- The base, `len(alphabet)` in the source (which evaluates to 40 even
though the surrounding comments speak of 50 characters). -/
def base : Nat := alphabet.length

/-- The decoding table `decodeMap`: index of a character in the alphabet,
`none` standing for the source's `-1` (invalid character; characters above
byte range are likewise invalid in the source). -/
def decodeIdx (c : Char) : Option Nat :=
  alphabet.indexOf? c

/-- `big.Int.SetBytes`: a byte slice read as a big-endian natural number. -/
def bytesToNat (data : List Nat) : Nat :=
  data.foldl (fun n b => n * 256 + b) 0

/-- `Encode` from the source: empty input encodes to the empty string; an
all-zero input to one alphabet-first character per byte; otherwise the
base-40 digits of the value (produced least-significant first, then
reversed) prefixed by one alphabet-first character per leading zero byte. -/
def Encode (data : List Nat) : List Char :=
  if data.isEmpty then []
  else
    let num := bytesToNat data
    if num = 0 then
      List.replicate data.length (alphabet.headD ' ')
    else
      let digitsLE := Nat.digits base num
      let result := digitsLE.map (fun d => alphabet.getD d ' ')
      let result := result ++
        List.replicate (data.takeWhile (fun b => b == 0)).length (alphabet.headD ' ')
      result.reverse

/-- Per-character table lookup of the decode loop; fails on the first
character not in the alphabet, as the source returns an error there. -/
def decodeIdxs : List Char → Option (List Nat)
  | [] => some []
  | c :: rest =>
    match decodeIdx c, decodeIdxs rest with
    | some d, some ds => some (d :: ds)
    | _, _ => none

/-- `Decode` from the source: empty input decodes to the empty slice;
otherwise the characters are folded into a number (most significant first),
its shortest big-endian byte form is taken (`num.Bytes()`), and one zero
byte is prepended per leading alphabet-first character of the input. -/
def Decode (s : List Char) : Option (List Nat) :=
  if s.isEmpty then some []
  else
    match decodeIdxs s with
    | none => none
    | some idxs =>
      let num := idxs.foldl (fun n d => n * base + d) 0
      let result := (Nat.digits 256 num).reverse
      let leadingZeros := (s.takeWhile (fun c => c == alphabet.headD ' ')).length
      some (List.replicate leadingZeros 0 ++ result)

end base40

/-! ## Organization creation (`service/service.go`, `storage/sqlite`)

`CreateOrganization` creates an organization row and then an initial API
key; if the key cannot be created it rolls the organization back.  The
SQLite repositories are embedded as list-backed tables with the uniqueness
and foreign-key constraints of the schema in `storage/sqlite/db.go`.
Randomness (`generateID`, `endec.CreateToken`) is passed in as explicit
`Option String` arguments (`none` embeds a failure of the random source);
row timestamps are not modelled (no control flow depends on them).
SHA-256 (`hashToken`) is passed in as an arbitrary function `String → String`
(no property of the hash is relevant to the claims).
-/

namespace svc

/-- Embedding of `domain.Organization` (id, slug, name; timestamps omitted). -/
structure Org where
  id : String
  slug : String
  name : String
deriving DecidableEq, Repr

/-- Embedding of `domain.APIKey` (id, org id, name, token hash;
timestamps omitted, the hash never exposed). -/
structure APIKey where
  id : String
  orgId : String
  name : String
  tokenHash : String
deriving DecidableEq, Repr

/-- Embedding of `domain.APIKeyWithToken`: the key row plus the plaintext
token, returned only on creation. -/
structure APIKeyWithToken where
  key : APIKey
  token : String
deriving DecidableEq, Repr

/-- Embedding of `domain.Project` (only the fields the organization
delete path inspects). -/
structure Project where
  id : String
  orgId : String
  slug : String
  name : String
deriving DecidableEq, Repr

/-- Embedding of `domain.CreateOrganizationRequest`. -/
structure CreateOrganizationRequest where
  slug : String
  name : String
deriving DecidableEq, Repr

/-- Embedding of the `domain` error taxonomy (`domain/errors.go` via its
constructors used in `service/service.go` and the sqlite repositories). -/
inductive NahError where
  | alreadyExists (resource field value : String)
  | notFound (resource id : String)
  | invalidInput (msg : String)
  | internal (msg : String)
  | repoFailure (msg : String)
deriving DecidableEq, Repr

/-- The SQLite-backed tables touched by organization creation:
`organizations`, `api_keys` and `projects` rows. -/
structure CloudState where
  orgs : List Org
  apiKeys : List APIKey
  projects : List Project
deriving DecidableEq, Repr

/-- `'a' ≤ c ≤ 'z'`, the character class `[a-z]` of `validateSlug`. -/
def isLowerAZ (c : Char) : Bool :=
  'a' ≤ c && c ≤ 'z'

/-- `[a-z0-9-]`, the tail character class of the slug pattern. -/
def isSlugTailChar (c : Char) : Bool :=
  isLowerAZ c || ('0' ≤ c && c ≤ '9') || c = '-'

/-- The regular expression `^[a-z][a-z0-9-]*$` of `validateSlug`, applied
to the string's characters. -/
def slugMatches (s : String) : Bool :=
  match s.data with
  | [] => false
  | c :: rest => isLowerAZ c && rest.all isSlugTailChar

/-- `validateSlug` from `service/service.go`: non-empty, at most 63 bytes,
and matching `^[a-z][a-z0-9-]*$` (for such ASCII strings Go's byte length
equals the character count used here). -/
def validateSlug (slug : String) : Option NahError :=
  if slug = "" then
    some (.invalidInput ("slug cannot be empty"))
  else if slug.length > 63 then
    some (.invalidInput ("slug too long"))
  else if ¬ slugMatches slug then
    some (.invalidInput ("slug must start with a lowercase letter and contain only lowercase letters, numbers, and dashes"))
  else
    none

/-- `validateName` from `service/service.go`: non-empty and at most 255
characters. -/
def validateName (name resourceType : String) : Option NahError :=
  if name = "" then
    some (.invalidInput (resourceType ++ " name cannot be empty"))
  else if name.length > 255 then
    some (.invalidInput (resourceType ++ " name too long"))
  else
    none

/-- `OrganizationRepository.Create` from
`storage/sqlite/organization_repository.go` plus the schema constraints of
`db.go`: INSERT failing on the UNIQUE slug or on the primary-key id. -/
def orgRepoCreate (st : CloudState) (org : Org) : Except NahError CloudState :=
  if st.orgs.any (fun o => o.slug = org.slug) then
    .error (.alreadyExists ("organization") "slug" org.slug)
  else if st.orgs.any (fun o => o.id = org.id) then
    .error (.alreadyExists ("organization") "id" org.id)
  else
    .ok { st with orgs := st.orgs ++ [org] }

/-- `OrganizationRepository.Delete` from
`storage/sqlite/organization_repository.go`: `GetByID` first (NotFound when
absent), then refuse when the organization still has projects, then DELETE
the row. -/
def orgRepoDelete (st : CloudState) (id : String) : Except NahError CloudState :=
  if ¬ st.orgs.any (fun o => o.id = id) then
    .error (.notFound ("organization") id)
  else if st.projects.any (fun p => p.orgId = id) then
    .error (.invalidInput ("cannot delete organization with existing projects"))
  else
    .ok { st with orgs := st.orgs.filter (fun o => o.id ≠ id) }

/-- `APIKeyRepository.Create` from `storage/sqlite/api_key_repository.go`
plus the `api_keys` schema constraints of `db.go`: INSERT failing on the
primary-key id, the UNIQUE token hash, or the org foreign key. -/
def apiKeyRepoCreate (st : CloudState) (key : APIKey) : Except NahError CloudState :=
  if st.apiKeys.any (fun k => k.id = key.id) then
    .error (.repoFailure ("failed to create API key"))
  else if st.apiKeys.any (fun k => k.tokenHash = key.tokenHash) then
    .error (.repoFailure ("failed to create API key"))
  else if ¬ st.orgs.any (fun o => o.id = key.orgId) then
    .error (.repoFailure ("failed to create API key"))
  else
    .ok { st with apiKeys := st.apiKeys ++ [key] }

/-- The random sources of `service/service.go`, passed in explicitly:
`generateID` results for the organization and the key, and the
`endec.CreateToken` result; `none` embeds a failure of `crypto/rand`. -/
structure RandomInput where
  orgId : Option String
  keyId : Option String
  token : Option String
deriving DecidableEq, Repr

/-- `Service.createAPIKey` from `service/service.go` (lines 371-399):
generate a key id and a token (each may fail internally), hash the token,
insert the row; on repository failure the state is untouched. -/
def createAPIKey (hashT : String → String) (st : CloudState) (orgID name : String)
    (keyId? token? : Option String) : Except NahError APIKeyWithToken × CloudState :=
  match keyId? with
  | none => (.error (.internal ("failed to generate API key ID")), st)
  | some keyId =>
    match token? with
    | none => (.error (.internal ("failed to generate token")), st)
    | some token =>
      let apiKey : APIKey := ⟨keyId, orgID, name, hashT token⟩
      match apiKeyRepoCreate st apiKey with
      | .error e => (.error e, st)
      | .ok st' => (.ok ⟨apiKey, token⟩, st')

/-- `Service.CreateOrganization` from `service/service.go` (lines 279-315):
validate slug and name, generate the org id, insert the organization row,
then create the initial API key named "default"; if that fails, roll the
organization back (the rollback's own error is discarded, as in the source)
and return the key-creation error. -/
def CreateOrganization (hashT : String → String) (st : CloudState)
    (req : CreateOrganizationRequest) (rnd : RandomInput) :
    Except NahError (Org × APIKeyWithToken) × CloudState :=
  match validateSlug req.slug with
  | some e => (.error e, st)
  | none =>
  match validateName req.name ("organization") with
  | some e => (.error e, st)
  | none =>
  match rnd.orgId with
  | none => (.error (.internal ("failed to generate org ID")), st)
  | some orgID =>
    let org : Org := ⟨orgID, req.slug, req.name⟩
    match orgRepoCreate st org with
    | .error e => (.error e, st)
    | .ok st1 =>
      match createAPIKey hashT st1 orgID ("default") rnd.keyId rnd.token with
      | (.error e, _) =>
        let st2 := match orgRepoDelete st1 orgID with
          | .ok s => s
          | .error _ => st1
        (.error e, st2)
      | (.ok kt, st2) => (.ok (org, kt), st2)

end svc

/-! ## Structural lemmas about the five operations -/

theorem GetState_snd (st : SvcState) (id : String) : (GetState st id).2 = st := by
  unfold GetState
  cases lookupKey id st.blobs <;> rfl

theorem SetState_locks (st : SvcState) (id : String) (bytes : List Nat) :
    (SetState st id bytes).2.locks = st.locks := by
  unfold SetState
  by_cases h : bytes = [] <;> simp [h]

theorem DeleteState_lookup_blobs (st : SvcState) (id j : String) :
    lookupKey j (DeleteState st id).2.blobs =
      if j = id then none else lookupKey j st.blobs := by
  unfold DeleteState storeDelete
  by_cases hnf : lookupKey id st.blobs = none ∧ lookupKey id st.locks = none
  · simp only [if_pos hnf]
    by_cases hj : j = id
    · subst hj
      simp [hnf.1]
    · simp [hj]
  · simp only [if_neg hnf]
    by_cases hj : j = id
    · subst hj
      simp [lookupKey_removeKey_self]
    · simp [hj, lookupKey_removeKey_ne hj]

theorem DeleteState_lookup_locks (st : SvcState) (id j : String) :
    lookupKey j (DeleteState st id).2.locks =
      if j = id then none else lookupKey j st.locks := by
  unfold DeleteState storeDelete
  by_cases hnf : lookupKey id st.blobs = none ∧ lookupKey id st.locks = none
  · simp only [if_pos hnf]
    by_cases hj : j = id
    · subst hj
      simp [hnf.2]
    · simp [hj]
  · simp only [if_neg hnf]
    by_cases hj : j = id
    · subst hj
      simp [lookupKey_removeKey_self]
    · simp [hj, lookupKey_removeKey_ne hj]

theorem DeleteState_fst (st : SvcState) (id : String) :
    (DeleteState st id).1 = .ok := by
  unfold DeleteState storeDelete
  by_cases hnf : lookupKey id st.blobs = none ∧ lookupKey id st.locks = none <;>
    simp [hnf]

theorem AcquireLock_blobs (st : SvcState) (id : String) (record : TFStateLock) :
    (AcquireLock st id record).2.blobs = st.blobs := by
  unfold AcquireLock TryAcquireLock
  by_cases h : record.ID = ""
  · simp [h]
  · simp only [if_neg h]
    cases lookupKey id st.locks <;> rfl

theorem ReleaseLock_blobs (st : SvcState) (id : String) (token : String) :
    (ReleaseLock st id token).2.blobs = st.blobs := by
  unfold ReleaseLock storeReleaseLock
  by_cases h : token = ""
  · simp [h]
  · simp only [if_neg h]
    cases hl : lookupKey id st.locks with
    | none => rfl
    | some e =>
      by_cases he : e.ID = token <;> simp [he]

theorem AcquireLock_locks_lookup (st : SvcState) (id : String) (record : TFStateLock)
    (j : String) :
    lookupKey j (AcquireLock st id record).2.locks =
      if record.ID = "" then lookupKey j st.locks
      else if (lookupKey id st.locks).isSome then lookupKey j st.locks
      else if id = j then some record else lookupKey j st.locks := by
  unfold AcquireLock TryAcquireLock
  by_cases h : record.ID = ""
  · simp [h]
  · simp only [if_neg h]
    cases hl : lookupKey id st.locks with
    | some e => simp
    | none =>
      simp only [Option.isSome_none, Bool.false_eq_true, if_false, if_neg]
      by_cases hj : id = j
      · simp [lookupKey, hj]
      · simp [lookupKey, hj]

theorem ReleaseLock_locks_lookup (st : SvcState) (id : String) (token : String)
    (j : String) :
    lookupKey j (ReleaseLock st id token).2.locks =
      if token = "" then lookupKey j st.locks
      else
        match lookupKey id st.locks with
        | none => lookupKey j st.locks
        | some e =>
          if e.ID = token then
            (if j = id then none else lookupKey j st.locks)
          else lookupKey j st.locks := by
  unfold ReleaseLock storeReleaseLock
  by_cases h : token = ""
  · simp [h]
  · simp only [if_neg h]
    cases hl : lookupKey id st.locks with
    | none => simp
    | some e =>
      by_cases he : e.ID = token
      · simp only [he, if_pos rfl]
        by_cases hj : j = id
        · subst hj
          simp [lookupKey_removeKey_self]
        · simp [hj, lookupKey_removeKey_ne hj]
      · simp [he]

theorem applyOp_blobs_none {st : SvcState} {id : String}
    (hnone : lookupKey id st.blobs = none) {op : TFOp}
    (hop : ∀ bytes, op ≠ TFOp.setS id bytes) :
    lookupKey id (applyOp st op).blobs = none := by
  cases op with
  | getS i => simp [applyOp, GetState_snd, hnone]
  | setS i b =>
    have hne : id ≠ i := by
      intro hc
      exact hop b (by rw [hc])
    simp only [applyOp]
    unfold SetState
    by_cases hb : b = []
    · simp [hb, hnone]
    · simp [hb, lookupKey_setKey_ne hne, hnone]
  | delS i => simp [applyOp, DeleteState_lookup_blobs, hnone]
  | lockS i r => simp [applyOp, AcquireLock_blobs, hnone]
  | unlockS i t => simp [applyOp, ReleaseLock_blobs, hnone]

theorem runOps_blobs_none {id : String} (ops : List TFOp)
    (h : ∀ bytes, TFOp.setS id bytes ∉ ops) (st : SvcState)
    (hst : lookupKey id st.blobs = none) :
    lookupKey id (runOps st ops).blobs = none := by
  induction ops generalizing st with
  | nil => exact hst
  | cons op rest ih =>
    have h1 : ∀ bytes, op ≠ TFOp.setS id bytes := fun b hc =>
      h b (by rw [hc]; exact List.mem_cons_self _ _)
    have h2 : ∀ bytes, TFOp.setS id bytes ∉ rest := fun b hb =>
      h b (List.mem_cons_of_mem _ hb)
    simpa [runOps] using ih h2 (applyOp st op) (applyOp_blobs_none hst h1)

/-! ## Claim theorems for the state protocol -/

/-- C4: for every state id and non-empty byte sequence `B`, `SetState(id, B)`
succeeds, and a `GetState(id)` performed directly after it returns exactly
`B`. -/
theorem setState_getState_roundtrip (st : SvcState) (id : String) (B : List Nat)
    (hB : B ≠ []) :
    (SetState st id B).1 = .ok ∧
    (GetState (SetState st id B).2 id).1 = .okBytes B := by
  constructor
  · simp [SetState, hB]
  · simp [SetState, hB, GetState, lookupKey_setKey_self]

/-- Witness for C4 at a concrete store, id and body. -/
theorem setState_getState_roundtrip_witness :
    ([3, 7] : List Nat) ≠ [] ∧
    ((SetState initState ("prod") [3, 7]).1 = .ok ∧
     (GetState (SetState initState ("prod") [3, 7]).2 ("prod")).1 = .okBytes [3, 7]) :=
  ⟨by decide, setState_getState_roundtrip initState ("prod") [3, 7] (by decide)⟩

/-- C5: for a state id never written in the whole request history, `GetState`
returns the non-error "no content" outcome (mapped to HTTP 404) and leaves
the store and lock state untouched. -/
theorem getState_never_written_not_found (ops : List TFOp) (id : String)
    (h : ∀ bytes, TFOp.setS id bytes ∉ ops) :
    GetState (runOps initState ops) id = (.noContent, runOps initState ops) ∧
    wireStatus (GetState (runOps initState ops) id).1 = 404 := by
  have hnone := runOps_blobs_none ops h initState rfl
  have hget : GetState (runOps initState ops) id = (.noContent, runOps initState ops) := by
    unfold GetState
    rw [hnone]
  exact ⟨hget, by rw [hget]; rfl⟩

/-- Witness for C5: a history that writes a different id only. -/
theorem getState_never_written_witness :
    (∀ bytes, TFOp.setS ("mystate") bytes ∉ [TFOp.setS ("other") [1]]) ∧
    (GetState (runOps initState [TFOp.setS ("other") [1]]) "mystate" =
      (.noContent, runOps initState [TFOp.setS ("other") [1]]) ∧
     wireStatus (GetState (runOps initState [TFOp.setS ("other") [1]]) "mystate").1 = 404) := by
  have hnot : ∀ bytes, TFOp.setS ("mystate") bytes ∉ [TFOp.setS ("other") [1]] := by
    intro b hb
    simp only [List.mem_singleton] at hb
    injection hb with h1 h2
    exact absurd h1 (by decide)
  exact ⟨hnot, getState_never_written_not_found [TFOp.setS ("other") [1]] "mystate" hnot⟩

/-- C6: `DeleteState` is idempotent — it succeeds whether or not the id
exists, a second delete succeeds as well (and leaves the very same state),
and a subsequent `GetState` reports the id as never written. -/
theorem deleteState_idempotent (st : SvcState) (id : String) :
    (DeleteState st id).1 = .ok ∧
    (DeleteState (DeleteState st id).2 id).1 = .ok ∧
    (DeleteState (DeleteState st id).2 id).2 = (DeleteState st id).2 ∧
    (GetState (DeleteState st id).2 id).1 = .noContent := by
  have hb : lookupKey id (DeleteState st id).2.blobs = none := by
    simp [DeleteState_lookup_blobs]
  have hl : lookupKey id (DeleteState st id).2.locks = none := by
    simp [DeleteState_lookup_locks]
  refine ⟨DeleteState_fst st id, DeleteState_fst _ id, ?_, ?_⟩
  · conv_lhs => rw [DeleteState, storeDelete, if_pos ⟨hb, hl⟩]
  · unfold GetState
    rw [hb]

/-- C2 counterexample: with no lock held, an acquire whose record carries an
empty `ID` token does not succeed (it is rejected as invalid input), so
"succeeds if and only if no LockRecord exists" fails as stated for every
lock record. -/
theorem acquireLock_empty_token_cex :
    lookupKey ("s") initState.locks = none ∧
    (AcquireLock initState ("s") ⟨"", "", "", "", "", ⟨0⟩, ""⟩).1 ≠
      TFResult.lockOk ⟨"", "", "", "", "", ⟨0⟩, ""⟩ ∧
    (AcquireLock initState ("s") ⟨"", "", "", "", "", ⟨0⟩, ""⟩).1 =
      .badRequest ("lock record must carry a non-empty ID token") := by
  decide

/-- C2 (amended): for every lock record `R` with a non-empty `ID` token,
`AcquireLock(id, R)` succeeds (echoing `R`) iff no record exists for the id;
when a record `E` exists the call reports Conflict carrying `E` — the
existing holder's record, not the caller's — and nothing is modified. -/
theorem acquireLock_succeeds_iff_unlocked (st : SvcState) (id : String)
    (r : TFStateLock) (hr : r.ID ≠ "") :
    ((AcquireLock st id r).1 = .lockOk r ↔ lookupKey id st.locks = none) ∧
    (∀ e, lookupKey id st.locks = some e →
      AcquireLock st id r = (.lockConflict e, st)) := by
  constructor
  · constructor
    · intro hok
      cases hl : lookupKey id st.locks with
      | none => rfl
      | some e => simp [AcquireLock, hr, TryAcquireLock, hl] at hok
    · intro hl
      simp [AcquireLock, hr, TryAcquireLock, hl]
  · intro e he
    simp [AcquireLock, hr, TryAcquireLock, he]

/-- Witness for the amended C2 at a concrete locked store. -/
theorem acquireLock_succeeds_iff_unlocked_witness :
    (TFStateLock.ID ⟨"t2", "", "", "", "", ⟨0⟩, ""⟩ ≠ "") ∧
    (((AcquireLock ⟨[], [("s", ⟨"t1", "", "", "", "", ⟨0⟩, ""⟩)]⟩ "s"
        ⟨"t2", "", "", "", "", ⟨0⟩, ""⟩).1 =
          .lockOk ⟨"t2", "", "", "", "", ⟨0⟩, ""⟩ ↔
      lookupKey ("s") (SvcState.locks ⟨[], [("s", ⟨"t1", "", "", "", "", ⟨0⟩, ""⟩)]⟩) = none) ∧
     (∀ e, lookupKey ("s") (SvcState.locks ⟨[], [("s", ⟨"t1", "", "", "", "", ⟨0⟩, ""⟩)]⟩) = some e →
       AcquireLock ⟨[], [("s", ⟨"t1", "", "", "", "", ⟨0⟩, ""⟩)]⟩ "s"
         ⟨"t2", "", "", "", "", ⟨0⟩, ""⟩ =
         (.lockConflict e, ⟨[], [("s", ⟨"t1", "", "", "", "", ⟨0⟩, ""⟩)]⟩))) :=
  ⟨by decide,
   acquireLock_succeeds_iff_unlocked ⟨[], [("s", ⟨"t1", "", "", "", "", ⟨0⟩, ""⟩)]⟩ "s"
     ⟨"t2", "", "", "", "", ⟨0⟩, ""⟩ (by decide)⟩

/-- C3 counterexample: a release whose token is empty is rejected as invalid
input; in particular with no record held it does not report the "no lock
held" outcome, so the claim fails as stated for every token. -/
theorem releaseLock_empty_token_cex :
    lookupKey ("s") initState.locks = none ∧
    (ReleaseLock initState ("s") "").1 ≠ TFResult.noLockHeld ∧
    (ReleaseLock initState ("s") "").1 = .badRequest ("lock token is required") := by
  decide

/-- C3 (amended): for every non-empty token `t`, `ReleaseLock(id, t)`
succeeds iff a record exists for the id whose `ID` field equals `t`; on a
differing token the call reports Mismatch carrying the stored record and
leaves everything untouched; with no record it reports the non-error
"no lock held" outcome, again leaving the state unchanged. -/
theorem releaseLock_succeeds_iff_token_matches (st : SvcState) (id : String)
    (t : String) (ht : t ≠ "") :
    ((ReleaseLock st id t).1 = .ok ↔
      ∃ e, lookupKey id st.locks = some e ∧ e.ID = t) ∧
    (∀ e, lookupKey id st.locks = some e → e.ID ≠ t →
      ReleaseLock st id t = (.lockMismatch e, st)) ∧
    (lookupKey id st.locks = none → ReleaseLock st id t = (.noLockHeld, st)) := by
  refine ⟨⟨?_, ?_⟩, ?_, ?_⟩
  · intro hok
    cases hl : lookupKey id st.locks with
    | none => simp [ReleaseLock, ht, storeReleaseLock, hl] at hok
    | some e =>
      by_cases he : e.ID = t
      · exact ⟨e, rfl, he⟩
      · simp [ReleaseLock, ht, storeReleaseLock, hl, he] at hok
  · rintro ⟨e, hl, he⟩
    simp [ReleaseLock, ht, storeReleaseLock, hl, he]
  · intro e hl he
    simp [ReleaseLock, ht, storeReleaseLock, hl, he]
  · intro hl
    simp [ReleaseLock, ht, storeReleaseLock, hl]

/-- Witness for the amended C3 at a concrete locked store and a wrong token. -/
theorem releaseLock_succeeds_iff_token_matches_witness :
    ("wrong-token" : String) ≠ "" ∧
    (((ReleaseLock ⟨[], [("s", ⟨"t1", "", "", "", "", ⟨0⟩, ""⟩)]⟩ "s" "wrong-token").1 = .ok ↔
      ∃ e, lookupKey ("s") (SvcState.locks ⟨[], [("s", ⟨"t1", "", "", "", "", ⟨0⟩, ""⟩)]⟩) = some e ∧
        e.ID = "wrong-token") ∧
     (∀ e, lookupKey ("s") (SvcState.locks ⟨[], [("s", ⟨"t1", "", "", "", "", ⟨0⟩, ""⟩)]⟩) = some e →
       e.ID ≠ "wrong-token" →
       ReleaseLock ⟨[], [("s", ⟨"t1", "", "", "", "", ⟨0⟩, ""⟩)]⟩ "s" "wrong-token" =
         (.lockMismatch e, ⟨[], [("s", ⟨"t1", "", "", "", "", ⟨0⟩, ""⟩)]⟩)) ∧
     (lookupKey ("s") (SvcState.locks ⟨[], [("s", ⟨"t1", "", "", "", "", ⟨0⟩, ""⟩)]⟩) = none →
       ReleaseLock ⟨[], [("s", ⟨"t1", "", "", "", "", ⟨0⟩, ""⟩)]⟩ "s" "wrong-token" =
         (.noLockHeld, ⟨[], [("s", ⟨"t1", "", "", "", "", ⟨0⟩, ""⟩)]⟩))) :=
  ⟨by decide,
   releaseLock_succeeds_iff_token_matches ⟨[], [("s", ⟨"t1", "", "", "", "", ⟨0⟩, ""⟩)]⟩ "s"
     "wrong-token" (by decide)⟩

/-- C7 counterexample: after acquiring and deleting, a subsequent acquire
whose record carries an empty `ID` token still does not succeed, so the
final conjunct of the claim fails for arbitrary `R2`. -/
theorem deleteState_clears_lock_cex :
    (AcquireLock initState ("s") ⟨"t1", "", "", "", "", ⟨0⟩, ""⟩).1 =
      TFResult.lockOk ⟨"t1", "", "", "", "", ⟨0⟩, ""⟩ ∧
    (DeleteState (AcquireLock initState ("s") ⟨"t1", "", "", "", "", ⟨0⟩, ""⟩).2 ("s")).1 =
      TFResult.ok ∧
    (AcquireLock
      (DeleteState (AcquireLock initState ("s") ⟨"t1", "", "", "", "", ⟨0⟩, ""⟩).2 ("s")).2
      ("s") ⟨"", "", "", "", "", ⟨0⟩, ""⟩).1 ≠
        TFResult.lockOk ⟨"", "", "", "", "", ⟨0⟩, ""⟩ := by
  decide

/-- C7 (amended): after a successful `AcquireLock(id, R1)`, `DeleteState(id)`
succeeds and removes both the blob and the lock record, and a subsequent
`AcquireLock(id, R2)` for any record `R2` with a non-empty `ID` token
succeeds immediately. -/
theorem deleteState_clears_lock (st st1 : SvcState) (id : String)
    (r1 r2 : TFStateLock)
    (_hacq : AcquireLock st id r1 = (.lockOk r1, st1)) (hr2 : r2.ID ≠ "") :
    (DeleteState st1 id).1 = .ok ∧
    lookupKey id (DeleteState st1 id).2.blobs = none ∧
    lookupKey id (DeleteState st1 id).2.locks = none ∧
    (AcquireLock (DeleteState st1 id).2 id r2).1 = .lockOk r2 := by
  have hb : lookupKey id (DeleteState st1 id).2.blobs = none := by
    simp [DeleteState_lookup_blobs]
  have hl : lookupKey id (DeleteState st1 id).2.locks = none := by
    simp [DeleteState_lookup_locks]
  exact ⟨DeleteState_fst st1 id, hb, hl, by simp [AcquireLock, hr2, TryAcquireLock, hl]⟩

/-- Witness for the amended C7 at a concrete acquire-delete-acquire run. -/
theorem deleteState_clears_lock_witness :
    (AcquireLock initState ("s") ⟨"t1", "", "", "", "", ⟨0⟩, ""⟩ =
      (.lockOk ⟨"t1", "", "", "", "", ⟨0⟩, ""⟩,
        ⟨[], [("s", ⟨"t1", "", "", "", "", ⟨0⟩, ""⟩)]⟩) ∧
     TFStateLock.ID ⟨"t2", "", "", "", "", ⟨0⟩, ""⟩ ≠ "") ∧
    ((DeleteState ⟨[], [("s", ⟨"t1", "", "", "", "", ⟨0⟩, ""⟩)]⟩ "s").1 = .ok ∧
     lookupKey ("s") (DeleteState ⟨[], [("s", ⟨"t1", "", "", "", "", ⟨0⟩, ""⟩)]⟩ "s").2.blobs = none ∧
     lookupKey ("s") (DeleteState ⟨[], [("s", ⟨"t1", "", "", "", "", ⟨0⟩, ""⟩)]⟩ "s").2.locks = none ∧
     (AcquireLock (DeleteState ⟨[], [("s", ⟨"t1", "", "", "", "", ⟨0⟩, ""⟩)]⟩ "s").2 ("s")
        ⟨"t2", "", "", "", "", ⟨0⟩, ""⟩).1 =
       .lockOk ⟨"t2", "", "", "", "", ⟨0⟩, ""⟩) :=
  ⟨⟨by decide, by decide⟩,
   deleteState_clears_lock initState ⟨[], [("s", ⟨"t1", "", "", "", "", ⟨0⟩, ""⟩)]⟩ "s"
     ⟨"t1", "", "", "", "", ⟨0⟩, ""⟩ ⟨"t2", "", "", "", "", ⟨0⟩, ""⟩ (by decide) (by decide)⟩

theorem applyOp_keysNodup {st : SvcState} (h : KeysNodup st.locks) (op : TFOp) :
    KeysNodup (applyOp st op).locks := by
  cases op with
  | getS i => simpa [applyOp, GetState_snd] using h
  | setS i b => simpa [applyOp, SetState_locks] using h
  | delS i =>
    simp only [applyOp]
    unfold DeleteState storeDelete
    by_cases hnf : lookupKey i st.blobs = none ∧ lookupKey i st.locks = none
    · simpa [hnf] using h
    · simpa [hnf] using keysNodup_removeKey i h
  | lockS i r =>
    simp only [applyOp]
    unfold AcquireLock TryAcquireLock
    by_cases hr : r.ID = ""
    · simpa [hr] using h
    · simp only [if_neg hr]
      cases hl : lookupKey i st.locks with
      | some e => exact h
      | none =>
        simp only [KeysNodup, List.map_cons, List.nodup_cons]
        exact ⟨(lookupKey_eq_none_iff i st.locks).mp hl, h⟩
  | unlockS i t =>
    simp only [applyOp]
    unfold ReleaseLock storeReleaseLock
    by_cases ht : t = ""
    · simpa [ht] using h
    · simp only [if_neg ht]
      cases hl : lookupKey i st.locks with
      | none => exact h
      | some e =>
        by_cases he : e.ID = t
        · simpa [he] using keysNodup_removeKey i h
        · simpa [he] using h

theorem runOps_keysNodup (ops : List TFOp) (st : SvcState) (h : KeysNodup st.locks) :
    KeysNodup (runOps st ops).locks := by
  induction ops generalizing st with
  | nil => exact h
  | cons op rest ih => simpa [runOps] using ih (applyOp st op) (applyOp_keysNodup h op)

/-- C1: in every reachable store, each state id holds at most one lock
record (the lock table's keys are pairwise distinct); across any single
further request, a record appears for an id only through a successful
acquire of that id carrying that very record, and a held record disappears
only through `DeleteState` of the id or a release whose supplied token
equals the stored record's `ID` field. -/
theorem tfstate_lock_unique_and_lifecycle (st : SvcState) (hst : Reachable st) :
    KeysNodup st.locks ∧
    (∀ op id record, lookupKey id (applyOp st op).locks = some record →
      lookupKey id st.locks = some record ∨
      (op = TFOp.lockS id record ∧ lookupKey id st.locks = none ∧ record.ID ≠ "")) ∧
    (∀ op id record, lookupKey id st.locks = some record →
      lookupKey id (applyOp st op).locks = some record ∨
      op = TFOp.delS id ∨ op = TFOp.unlockS id record.ID) := by
  refine ⟨?_, ?_, ?_⟩
  · obtain ⟨ops, rfl⟩ := hst
    exact runOps_keysNodup ops initState (by simp [KeysNodup, initState])
  · intro op id record hafter
    cases op with
    | getS i =>
      rw [applyOp, GetState_snd] at hafter
      exact Or.inl hafter
    | setS i b =>
      rw [applyOp] at hafter
      rw [SetState_locks] at hafter
      exact Or.inl hafter
    | delS i =>
      rw [applyOp, DeleteState_lookup_locks] at hafter
      by_cases hj : id = i
      · simp [hj] at hafter
      · rw [if_neg hj] at hafter
        exact Or.inl hafter
    | lockS i r =>
      rw [applyOp, AcquireLock_locks_lookup] at hafter
      by_cases hr : r.ID = ""
      · rw [if_pos hr] at hafter
        exact Or.inl hafter
      · rw [if_neg hr] at hafter
        by_cases hsome : (lookupKey i st.locks).isSome
        · rw [if_pos hsome] at hafter
          exact Or.inl hafter
        · rw [if_neg hsome] at hafter
          by_cases hij : i = id
          · rw [if_pos hij] at hafter
            have hrec : r = record := by
              injection hafter
            subst hrec
            subst hij
            refine Or.inr ⟨rfl, ?_, hr⟩
            cases hlk : lookupKey i st.locks with
            | none => rfl
            | some e => simp [hlk] at hsome
          · rw [if_neg hij] at hafter
            exact Or.inl hafter
    | unlockS i t =>
      rw [applyOp, ReleaseLock_locks_lookup] at hafter
      by_cases ht : t = ""
      · rw [if_pos ht] at hafter
        exact Or.inl hafter
      · rw [if_neg ht] at hafter
        cases hl : lookupKey i st.locks with
        | none =>
          rw [hl] at hafter
          exact Or.inl hafter
        | some e =>
          rw [hl] at hafter
          by_cases he : e.ID = t
          · by_cases hj : id = i
            · simp [he, hj] at hafter
            · simp only [he, if_pos rfl, if_neg hj] at hafter
              exact Or.inl hafter
          · simp only [if_neg he] at hafter
            exact Or.inl hafter
  · intro op id record hbefore
    cases op with
    | getS i =>
      rw [applyOp, GetState_snd]
      exact Or.inl hbefore
    | setS i b =>
      rw [applyOp]
      rw [SetState_locks]
      exact Or.inl hbefore
    | delS i =>
      by_cases hj : id = i
      · subst hj
        exact Or.inr (Or.inl rfl)
      · rw [applyOp, DeleteState_lookup_locks, if_neg hj]
        exact Or.inl hbefore
    | lockS i r =>
      rw [applyOp, AcquireLock_locks_lookup]
      by_cases hr : r.ID = ""
      · rw [if_pos hr]
        exact Or.inl hbefore
      · rw [if_neg hr]
        by_cases hsome : (lookupKey i st.locks).isSome
        · rw [if_pos hsome]
          exact Or.inl hbefore
        · rw [if_neg hsome]
          by_cases hij : i = id
          · subst hij
            rw [hbefore] at hsome
            simp at hsome
          · rw [if_neg hij]
            exact Or.inl hbefore
    | unlockS i t =>
      rw [applyOp, ReleaseLock_locks_lookup]
      by_cases ht : t = ""
      · rw [if_pos ht]
        exact Or.inl hbefore
      · rw [if_neg ht]
        cases hl : lookupKey i st.locks with
        | none => exact Or.inl hbefore
        | some e =>
          by_cases he : e.ID = t
          · by_cases hj : id = i
            · subst hj
              have he' : e = record := by
                rw [hbefore] at hl
                injection hl with hh
                exact hh.symm
              subst he'
              exact Or.inr (Or.inr (by rw [he]))
            · simp only [he, if_pos rfl, if_neg hj]
              exact Or.inl hbefore
          · simp only [if_neg he]
            exact Or.inl hbefore

/-- Witness for C1 at the empty (reachable) store. -/
theorem tfstate_lock_unique_and_lifecycle_witness :
    Reachable initState ∧
    (KeysNodup initState.locks ∧
     (∀ op id record, lookupKey id (applyOp initState op).locks = some record →
       lookupKey id initState.locks = some record ∨
       (op = TFOp.lockS id record ∧ lookupKey id initState.locks = none ∧ record.ID ≠ "")) ∧
     (∀ op id record, lookupKey id initState.locks = some record →
       lookupKey id (applyOp initState op).locks = some record ∨
       op = TFOp.delS id ∨ op = TFOp.unlockS id record.ID)) :=
  ⟨⟨[], rfl⟩, tfstate_lock_unique_and_lifecycle initState ⟨[], rfl⟩⟩

/-- C8 counterexample: on the all-zero lock record the `Created` field holds
the zero time — an "empty" value — yet its key is still serialized, because
Go's `omitempty` never omits struct-typed fields such as `time.Time`; so
"every field other than ID is omitted whenever its value is empty" fails. -/
theorem tfLock_created_omitempty_cex :
    TFStateLock.Created ⟨"", "", "", "", "", ⟨0⟩, ""⟩ = ⟨0⟩ ∧
    "Created" ∈ tfLockMarshalKeys ⟨"", "", "", "", "", ⟨0⟩, ""⟩ ∧
    tfLockMarshalKeys ⟨"", "", "", "", "", ⟨0⟩, ""⟩ = ["ID", "Created"] := by
  decide

/-- C8 (amended): the serialized object uses only the exact capitalized keys
ID, Operation, Info, Who, Version, Created, Path; ID is always present;
each string-valued field other than ID is omitted precisely when its value
is empty; and Created is always present (Go's `omitempty` has no effect on
a struct-typed `time.Time` field). -/
theorem tfLock_marshal_keys_shape (r : TFStateLock) :
    (∀ k ∈ tfLockMarshalKeys r,
      k ∈ ["ID", "Operation", "Info", "Who", "Version", "Created", "Path"]) ∧
    "ID" ∈ tfLockMarshalKeys r ∧
    "Created" ∈ tfLockMarshalKeys r ∧
    ("Operation" ∈ tfLockMarshalKeys r ↔ r.Operation ≠ "") ∧
    ("Info" ∈ tfLockMarshalKeys r ↔ r.Info ≠ "") ∧
    ("Who" ∈ tfLockMarshalKeys r ↔ r.Who ≠ "") ∧
    ("Version" ∈ tfLockMarshalKeys r ↔ r.Version ≠ "") ∧
    ("Path" ∈ tfLockMarshalKeys r ↔ r.Path ≠ "") := by
  unfold tfLockMarshalKeys
  split_ifs <;> simp_all

/-! ## Round trip of the `pkg/base50` codec -/

namespace base40

theorem decodeIdx_head : decodeIdx '2' = some 0 := rfl

theorem decodeIdx_getD {d : Nat} (hd : d < 40) :
    decodeIdx (alphabet.getD d ' ') = some d := by
  interval_cases d <;> rfl

theorem getD_ne_head {d : Nat} (hd : d < 40) (h0 : d ≠ 0) :
    alphabet.getD d ' ' ≠ '2' := by
  interval_cases d <;> simp_all <;> decide

theorem getD_eq_head_beq {d : Nat} (hd : d < 40) (h0 : d ≠ 0) :
    (alphabet.getD d ' ' == '2') = false := by
  exact beq_eq_false_iff_ne.mpr (getD_ne_head hd h0)

theorem decodeIdxs_append {l1 l2 : List Char} {d1 d2 : List Nat}
    (h1 : decodeIdxs l1 = some d1) (h2 : decodeIdxs l2 = some d2) :
    decodeIdxs (l1 ++ l2) = some (d1 ++ d2) := by
  induction l1 generalizing d1 with
  | nil =>
    simp only [decodeIdxs] at h1
    injection h1 with h1
    subst h1
    simpa using h2
  | cons c rest ih =>
    cases hc : decodeIdx c with
    | none => simp [decodeIdxs, hc] at h1
    | some d =>
      cases hr : decodeIdxs rest with
      | none => simp [decodeIdxs, hc, hr] at h1
      | some ds =>
        simp only [decodeIdxs, hc, hr] at h1
        injection h1 with h1
        subst h1
        simp only [List.cons_append, decodeIdxs, hc, List.append_eq, ih hr]

theorem decodeIdxs_replicate_head (k : Nat) :
    decodeIdxs (List.replicate k '2') = some (List.replicate k 0) := by
  induction k with
  | zero => rfl
  | succ n ih =>
    simp only [List.replicate_succ, decodeIdxs, decodeIdx_head, ih]

theorem decodeIdxs_map_getD {D : List Nat} (h : ∀ d ∈ D, d < 40) :
    decodeIdxs (D.map (fun d => alphabet.getD d ' ')) = some D := by
  induction D with
  | nil => rfl
  | cons d t ih =>
    have hd : d < 40 := h d (List.mem_cons_self _ _)
    have ht : ∀ x ∈ t, x < 40 := fun x hx => h x (List.mem_cons_of_mem _ hx)
    simp only [List.map_cons, decodeIdxs, decodeIdx_getD hd, ih ht]

theorem foldl_mul_add (B : Nat) (l : List Nat) (a : Nat) :
    l.foldl (fun n d => n * B + d) a = a * B ^ l.length + Nat.ofDigits B l.reverse := by
  induction l generalizing a with
  | nil => simp
  | cons d t ih =>
    simp only [List.foldl_cons, ih (a * B + d), List.reverse_cons, Nat.ofDigits_append,
      List.length_cons, List.length_reverse, Nat.ofDigits_singleton]
    ring

theorem ofDigits_replicate_zero (B k : Nat) :
    Nat.ofDigits B (List.replicate k 0) = 0 := by
  induction k with
  | zero => rfl
  | succ n ih => simp [List.replicate_succ, Nat.ofDigits_cons, ih]

theorem bytesToNat_eq (data : List Nat) :
    bytesToNat data = Nat.ofDigits 256 data.reverse := by
  unfold bytesToNat
  rw [foldl_mul_add]
  simp

theorem bytesToNat_eq_zero {data : List Nat} (h : bytesToNat data = 0) :
    ∀ b ∈ data, b = 0 := by
  intro b hb
  rw [bytesToNat_eq] at h
  exact Nat.digits_zero_of_eq_zero (by norm_num) h b (List.mem_reverse.mpr hb)

theorem takeWhile_replicate_append {α : Type} (p : α → Bool) (a : α) (k : Nat)
    (l : List α) (hpa : p a = true) (hl : ∀ c, l.head? = some c → p c = false) :
    (List.replicate k a ++ l).takeWhile p = List.replicate k a := by
  induction k with
  | zero =>
    simp only [List.replicate, List.nil_append]
    cases l with
    | nil => rfl
    | cons c t =>
      have hc := hl c rfl
      simp [List.takeWhile_cons, hc]
  | succ n ih =>
    simp [List.replicate_succ, List.takeWhile_cons, hpa, ih]

theorem head_dropWhile_false {α : Type} (p : α → Bool) (l : List α) {c : α}
    {rest : List α} (h : l.dropWhile p = c :: rest) : p c = false := by
  have := List.head?_dropWhile_not p l
  rw [h] at this
  exact this

end base40


namespace base40

/-- C9: the codec round-trips — decoding an encoded byte sequence returns it
exactly without error, for every byte sequence including the empty one and
those with leading zero bytes (preserved via repetition of the first
alphabet character). -/
theorem Decode_Encode (data : List Nat) (h : ∀ b ∈ data, b < 256) :
    Decode (Encode data) = some data := by
  have halph : alphabet.headD ' ' = '2' := rfl
  have hbase : base = 40 := rfl
  by_cases hemp : data = []
  · subst hemp
    rfl
  · have hne : data.isEmpty = false := List.isEmpty_eq_false.mpr hemp
    by_cases hz : bytesToNat data = 0
    · -- every byte is zero: the encoding is a run of the first alphabet char
      have hall : ∀ b ∈ data, b = 0 := bytesToNat_eq_zero hz
      have hlen : data = List.replicate data.length 0 :=
        List.eq_replicate_iff.mpr ⟨rfl, hall⟩
      have hEnc : Encode data = List.replicate data.length '2' := by
        unfold Encode
        rw [if_neg (by simp [hne]), if_pos hz, halph]
      have hn0 : data.length ≠ 0 := fun hl => hemp (List.length_eq_zero.mp hl)
      have hsne : (List.replicate data.length '2').isEmpty = false := by
        refine List.isEmpty_eq_false.mpr ?_
        simp [hn0]
      have hfold : (List.replicate data.length 0).foldl (fun n d => n * base + d) 0 = 0 := by
        rw [foldl_mul_add]
        simp [List.reverse_replicate, ofDigits_replicate_zero]
      have htake : ((List.replicate data.length '2').takeWhile
          (fun c => c == alphabet.headD ' ')).length = data.length := by
        rw [halph]
        have := takeWhile_replicate_append (fun c => c == '2') '2' data.length []
          (by decide) (by intro c hc; cases hc)
        rw [List.append_nil] at this
        rw [this, List.length_replicate]
      rw [hEnc]
      simp only [Decode, hsne, Bool.false_eq_true, if_false,
        decodeIdxs_replicate_head, hfold, htake, Nat.digits_zero,
        List.reverse_nil, List.append_nil]
      exact congrArg some hlen.symm
    · -- nonzero value: leading zero bytes are marked, the rest carries digits
      set k := (data.takeWhile (fun b => b == 0)).length with hk
      set rest := data.dropWhile (fun b => b == 0) with hrest
      have htake0 : data.takeWhile (fun b => b == 0) = List.replicate k 0 := by
        refine List.eq_replicate_iff.mpr ⟨rfl, ?_⟩
        intro b hb
        have hbeq := List.mem_takeWhile_imp hb
        simpa using hbeq
      have hdecomp : List.replicate k 0 ++ rest = data := by
        rw [← htake0]
        exact List.takeWhile_append_dropWhile _ _
      have hrest_ne : rest ≠ [] := by
        intro hr0
        apply hz
        have hdat : data = List.replicate k 0 := by
          rw [← hdecomp, hr0, List.append_nil]
        rw [hdat, bytesToNat_eq, List.reverse_replicate, ofDigits_replicate_zero]
      obtain ⟨r0, rtail, hr⟩ := List.exists_cons_of_ne_nil hrest_ne
      have hr0 : r0 ≠ 0 := by
        have hfalse : (r0 == 0) = false :=
          head_dropWhile_false (fun b => b == 0) data (by rw [← hrest]; exact hr)
        intro hcc
        rw [hcc] at hfalse
        simp at hfalse
      have hrest_mem : ∀ b ∈ rest, b < 256 := by
        intro b hb
        exact h b (by rw [← hdecomp]; exact List.mem_append_right _ hb)
      have hnum_rest : bytesToNat data = Nat.ofDigits 256 rest.reverse := by
        conv_lhs => rw [bytesToNat_eq, ← hdecomp]
        rw [List.reverse_append, List.reverse_replicate, Nat.ofDigits_append,
          ofDigits_replicate_zero]
        ring
      set D := Nat.digits base (bytesToNat data) with hD
      have hD_ne : D ≠ [] := by
        rw [hD, hbase]
        exact Nat.digits_ne_nil_iff_ne_zero.mpr hz
      have hD_lt : ∀ d ∈ D, d < 40 := by
        intro d hd
        rw [hD, hbase] at hd
        exact Nat.digits_lt_base (by norm_num) hd
      have hD_last0 : D.getLast hD_ne ≠ 0 :=
        Nat.getLast_digit_ne_zero 40 hz
      have hEnc : Encode data =
          List.replicate k '2' ++ D.reverse.map (fun d => alphabet.getD d ' ') := by
        unfold Encode
        rw [if_neg (by simp [hne]), if_neg hz, halph]
        rw [List.reverse_append, List.reverse_replicate, ← List.map_reverse]
      have hs_ne : (List.replicate k '2' ++
          D.reverse.map (fun d => alphabet.getD d ' ')).isEmpty = false := by
        refine List.isEmpty_eq_false.mpr ?_
        simp [hD_ne]
      have hidxs : decodeIdxs (List.replicate k '2' ++
          D.reverse.map (fun d => alphabet.getD d ' ')) =
          some (List.replicate k 0 ++ D.reverse) :=
        decodeIdxs_append (decodeIdxs_replicate_head k)
          (decodeIdxs_map_getD (fun d hd => hD_lt d (List.mem_reverse.mp hd)))
      have hfold : (List.replicate k 0 ++ D.reverse).foldl
          (fun n d => n * base + d) 0 = bytesToNat data := by
        rw [foldl_mul_add, List.reverse_append, List.reverse_reverse,
          List.reverse_replicate, Nat.ofDigits_append, ofDigits_replicate_zero,
          Nat.mul_zero, Nat.add_zero, Nat.zero_mul, Nat.zero_add, hD, hbase]
        exact Nat.ofDigits_digits 40 (bytesToNat data)
      have hbytes : Nat.digits 256 (bytesToNat data) = rest.reverse := by
        rw [hnum_rest]
        refine Nat.digits_ofDigits 256 (by norm_num) rest.reverse ?_ ?_
        · intro x hx
          exact hrest_mem x (List.mem_reverse.mp hx)
        · intro hh
          have hlast? : rest.reverse.getLast? = some r0 := by
            rw [List.getLast?_reverse, hr]
            rfl
          rw [List.getLast?_eq_getLast _ hh] at hlast?
          injection hlast? with hlast?
          rw [hlast?]
          exact hr0
      have hhead : (D.reverse.map (fun d => alphabet.getD d ' ')).head? =
          some (alphabet.getD (D.getLast hD_ne) ' ') := by
        rw [List.head?_map, List.head?_reverse, List.getLast?_eq_getLast _ hD_ne]
        rfl
      have htakes : ((List.replicate k '2' ++
          D.reverse.map (fun d => alphabet.getD d ' ')).takeWhile
            (fun c => c == alphabet.headD ' ')).length = k := by
        rw [halph]
        rw [takeWhile_replicate_append (fun c => c == '2') '2' k _ (by decide) ?hl]
        · exact List.length_replicate k '2'
        case hl =>
          intro c hc
          rw [hhead] at hc
          injection hc with hc
          rw [← hc]
          exact getD_eq_head_beq (hD_lt _ (List.getLast_mem hD_ne)) hD_last0
      rw [hEnc]
      simp only [Decode, hs_ne, Bool.false_eq_true, if_false, hidxs, hfold,
        hbytes, List.reverse_reverse, htakes]
      exact congrArg some hdecomp

/-- Witness for C9 at a concrete byte sequence with leading zeros. -/
theorem Decode_Encode_witness :
    (∀ b ∈ ([0, 0, 200, 3] : List Nat), b < 256) ∧
    Decode (Encode [0, 0, 200, 3]) = some [0, 0, 200, 3] :=
  ⟨by decide, Decode_Encode [0, 0, 200, 3] (by decide)⟩

end base40

/-! ## Atomicity of organization creation -/

namespace svc

theorem createAPIKey_error_state {hashT : String → String} {st : CloudState}
    {orgID name : String} {keyId? token? : Option String} {e : NahError}
    {st' : CloudState}
    (h : createAPIKey hashT st orgID name keyId? token? = (.error e, st')) :
    st' = st := by
  unfold createAPIKey at h
  cases keyId? with
  | none =>
    rw [Prod.mk.injEq] at h
    exact h.2.symm
  | some keyId =>
    cases token? with
    | none =>
      rw [Prod.mk.injEq] at h
      exact h.2.symm
    | some token =>
      cases hc : apiKeyRepoCreate st ⟨keyId, orgID, name, hashT token⟩ with
      | error e' =>
        simp only [hc, Prod.mk.injEq] at h
        exact h.2.symm
      | ok st1 =>
        simp only [hc, Prod.mk.injEq] at h
        exact absurd h.1 (by simp)

theorem createAPIKey_ok_state {hashT : String → String} {st : CloudState}
    {orgID name : String} {keyId? token? : Option String} {kt : APIKeyWithToken}
    {st' : CloudState}
    (h : createAPIKey hashT st orgID name keyId? token? = (.ok kt, st')) :
    st'.orgs = st.orgs ∧ st'.projects = st.projects ∧
    st'.apiKeys = st.apiKeys ++ [kt.key] := by
  unfold createAPIKey at h
  cases keyId? with
  | none =>
    rw [Prod.mk.injEq] at h
    cases h.1
  | some keyId =>
    cases token? with
    | none =>
      rw [Prod.mk.injEq] at h
      cases h.1
    | some token =>
      cases hc : apiKeyRepoCreate st ⟨keyId, orgID, name, hashT token⟩ with
      | error e' =>
        simp only [hc, Prod.mk.injEq] at h
        exact absurd h.1 (by simp)
      | ok st1 =>
        simp only [hc, Prod.mk.injEq, Except.ok.injEq] at h
        obtain ⟨hkt, hst⟩ := h
        subst hkt
        subst hst
        unfold apiKeyRepoCreate at hc
        by_cases h1 : st.apiKeys.any (fun k => k.id = keyId) = true
        · simp [h1] at hc
        · by_cases h2 : st.apiKeys.any (fun k => k.tokenHash = hashT token) = true
          · simp [h1, h2] at hc
          · by_cases h3 : st.orgs.any (fun o => o.id = orgID) = true
            · simp only [h1, h2, h3, Bool.false_eq_true, if_false, if_true,
                Except.ok.injEq, not_true, ite_not] at hc
              rw [← hc]
              exact ⟨rfl, rfl, rfl⟩
            · simp [h1, h2, h3] at hc

theorem orgRepoCreate_ok {st : CloudState} {org : Org} {st' : CloudState}
    (h : orgRepoCreate st org = .ok st') :
    st' = { st with orgs := st.orgs ++ [org] } ∧
    st.orgs.any (fun o => o.slug = org.slug) = false ∧
    st.orgs.any (fun o => o.id = org.id) = false := by
  unfold orgRepoCreate at h
  by_cases h1 : st.orgs.any (fun o => o.slug = org.slug) = true
  · simp [h1] at h
  · by_cases h2 : st.orgs.any (fun o => o.id = org.id) = true
    · simp [h1, h2] at h
    · simp only [h1, h2, Bool.false_eq_true, if_false, Except.ok.injEq] at h
      exact ⟨h.symm, Bool.not_eq_true _ ▸ h1, Bool.not_eq_true _ ▸ h2⟩

end svc

namespace svc

/-- C10: `CreateOrganization` is atomic with respect to its initial API key —
when any step fails (including failure of the key creation after the
organization row was inserted, which triggers the rollback delete) the
returned error leaves the organization and API key tables exactly as they
were; on success the returned organization and the returned key are
exactly the one new row in each table.  The hypothesis is the `api_keys` /
`projects` foreign-key discipline the SQLite schema enforces. -/
theorem createOrganization_atomic (hashT : String → String) (st : CloudState)
    (req : CreateOrganizationRequest) (rnd : RandomInput)
    (hfk : ∀ p ∈ st.projects, ∃ o ∈ st.orgs, o.id = p.orgId) :
    (∀ e st', CreateOrganization hashT st req rnd = (.error e, st') →
      st'.orgs = st.orgs ∧ st'.apiKeys = st.apiKeys) ∧
    (∀ org kt st', CreateOrganization hashT st req rnd = (.ok (org, kt), st') →
      st'.orgs = st.orgs ++ [org] ∧ st'.apiKeys = st.apiKeys ++ [kt.key]) := by
  cases hv1 : validateSlug req.slug with
  | some e1 =>
    constructor
    · intro e st' heq
      simp only [CreateOrganization, hv1, Prod.mk.injEq] at heq
      rw [← heq.2]
      exact ⟨rfl, rfl⟩
    · intro org kt st' heq
      simp only [CreateOrganization, hv1, Prod.mk.injEq] at heq
      exact absurd heq.1 (by simp)
  | none =>
  cases hv2 : validateName req.name ("organization") with
  | some e2 =>
    constructor
    · intro e st' heq
      simp only [CreateOrganization, hv1, hv2, Prod.mk.injEq] at heq
      rw [← heq.2]
      exact ⟨rfl, rfl⟩
    · intro org kt st' heq
      simp only [CreateOrganization, hv1, hv2, Prod.mk.injEq] at heq
      exact absurd heq.1 (by simp)
  | none =>
  cases hoid : rnd.orgId with
  | none =>
    constructor
    · intro e st' heq
      simp only [CreateOrganization, hv1, hv2, hoid, Prod.mk.injEq] at heq
      rw [← heq.2]
      exact ⟨rfl, rfl⟩
    · intro org kt st' heq
      simp only [CreateOrganization, hv1, hv2, hoid, Prod.mk.injEq] at heq
      exact absurd heq.1 (by simp)
  | some orgID =>
  cases hoc : orgRepoCreate st ⟨orgID, req.slug, req.name⟩ with
  | error e3 =>
    constructor
    · intro e st' heq
      simp only [CreateOrganization, hv1, hv2, hoid, hoc, Prod.mk.injEq] at heq
      rw [← heq.2]
      exact ⟨rfl, rfl⟩
    · intro org kt st' heq
      simp only [CreateOrganization, hv1, hv2, hoid, hoc, Prod.mk.injEq] at heq
      exact absurd heq.1 (by simp)
  | ok st1 =>
    obtain ⟨hst1, hslug, hid⟩ := orgRepoCreate_ok hoc
    cases hak : createAPIKey hashT st1 orgID ("default") rnd.keyId rnd.token with
    | mk r st2' =>
    cases r with
    | error e4 =>
      have hst2' : st2' = st1 := createAPIKey_error_state hak
      have hnoid : ∀ o ∈ st.orgs, o.id ≠ orgID := by
        intro o ho hc
        have : st.orgs.any (fun o => o.id = orgID) = true :=
          List.any_eq_true.mpr ⟨o, ho, by simp [hc]⟩
        rw [show (⟨orgID, req.slug, req.name⟩ : Org).id = orgID from rfl] at hid
        rw [hid] at this
        cases this
      have hdel : orgRepoDelete st1 orgID = .ok { st1 with orgs := st.orgs } := by
        unfold orgRepoDelete
        have hany : st1.orgs.any (fun o => o.id = orgID) = true := by
          subst hst1
          simp
        have hproj : st1.projects.any (fun p => p.orgId = orgID) = false := by
          subst hst1
          rw [Bool.eq_false_iff]
          intro hc
          obtain ⟨p, hp, hpid⟩ := List.any_eq_true.mp hc
          obtain ⟨o, ho, hoeq⟩ := hfk p hp
          exact hnoid o ho (by simp at hpid; rw [hoeq, hpid])
        rw [hany]
        simp only [hproj, Bool.false_eq_true, if_false, not_true, if_neg]
        have hfilter : st1.orgs.filter (fun o => o.id ≠ orgID) = st.orgs := by
          subst hst1
          simp only [List.filter_append]
          rw [List.filter_eq_self.mpr, List.filter_cons]
          · simp
          · intro o ho
            simpa using hnoid o ho
        rw [hfilter]
      constructor
      · intro e st' heq
        simp only [CreateOrganization, hv1, hv2, hoid, hoc, hak, hdel,
          Prod.mk.injEq] at heq
        rw [← heq.2]
        subst hst1
        exact ⟨rfl, rfl⟩
      · intro org kt st' heq
        simp only [CreateOrganization, hv1, hv2, hoid, hoc, hak, hdel,
          Prod.mk.injEq] at heq
        exact absurd heq.1 (by simp)
    | ok kt' =>
      obtain ⟨hor, hpr, hkeys⟩ := createAPIKey_ok_state hak
      constructor
      · intro e st' heq
        simp only [CreateOrganization, hv1, hv2, hoid, hoc, hak,
          Prod.mk.injEq] at heq
        exact absurd heq.1 (by simp)
      · intro org kt st' heq
        simp only [CreateOrganization, hv1, hv2, hoid, hoc, hak,
          Prod.mk.injEq, Except.ok.injEq] at heq
        obtain ⟨⟨horg, hkt⟩, hst'⟩ := heq
        subst horg
        subst hkt
        subst hst'
        subst hst1
        exact ⟨by rw [hor], by rw [hkeys]⟩

/-- Witness for C10 on the empty database with fresh random values. -/
theorem createOrganization_atomic_witness :
    (∀ p ∈ CloudState.projects ⟨[], [], []⟩, ∃ o ∈ CloudState.orgs ⟨[], [], []⟩,
      o.id = p.orgId) ∧
    ((∀ e st', CreateOrganization (fun s => s) ⟨[], [], []⟩ ⟨"acme", "Acme"⟩
        ⟨some ("o1"), some ("k1"), some ("tok")⟩ = (.error e, st') →
      st'.orgs = CloudState.orgs ⟨[], [], []⟩ ∧
      st'.apiKeys = CloudState.apiKeys ⟨[], [], []⟩) ∧
     (∀ org kt st', CreateOrganization (fun s => s) ⟨[], [], []⟩ ⟨"acme", "Acme"⟩
        ⟨some ("o1"), some ("k1"), some ("tok")⟩ = (.ok (org, kt), st') →
      st'.orgs = CloudState.orgs ⟨[], [], []⟩ ++ [org] ∧
      st'.apiKeys = CloudState.apiKeys ⟨[], [], []⟩ ++ [kt.key])) :=
  ⟨fun p hp => absurd hp (List.not_mem_nil p),
   createOrganization_atomic (fun s => s) ⟨[], [], []⟩ ⟨"acme", "Acme"⟩
     ⟨some ("o1"), some ("k1"), some ("tok")⟩
     (fun p hp => absurd hp (List.not_mem_nil p))⟩

end svc
